import Mathlib

/-!
# Verification of pacemaker `lib/common/operations.c`

A shallow embedding of the operation-key / transition-key codec, the result
classifier, the digest filter and the metadata-requirement policy of
`src/lib/common/operations.c`, together with proofs settling the frozen
claims about the natural-language specification.

C strings are modelled as `List Char` / `String`; `guint` arithmetic is
`Nat` with explicit `% 2^32` (and `% 2^64` for `unsigned long long`);
functions which report success through a `gboolean` and write through
caller-supplied output pointers are modelled as functions returning a
structure holding the success flag and the final value of every output
slot.
-/

/-! ## Character and decimal-digit helpers -/

/-- C `isspace` for the default locale: space, tab, newline, vertical tab,
form feed, carriage return. -/
def isspace (c : Char) : Bool :=
  c = ' ' || c = '\t' || c = '\n' || c = '\x0b' || c = '\x0c' || c = '\r'

/-- Numeric value of a decimal digit character (`c - '0'` in C). -/
def dval (c : Char) : Nat :=
  c.toNat - 48

/-- The decimal digit character for a value below ten (ten and above clamp
to `'9'`; all uses keep the argument below ten). -/
def digitChar (n : Nat) : Char :=
  match n with
  | 0 => '0' | 1 => '1' | 2 => '2' | 3 => '3' | 4 => '4'
  | 5 => '5' | 6 => '6' | 7 => '7' | 8 => '8' | _ => '9'

/-- Decimal representation of a natural number, most significant digit
first, no leading zeros — the digit sequence `printf("%u")` produces. -/
def natDigits (n : Nat) : List Char :=
  if _h : n < 10 then [digitChar n]
  else natDigits (n / 10) ++ [digitChar (n % 10)]
decreasing_by exact Nat.div_lt_self (by omega) (by omega)

/-- Value of a most-significant-first decimal digit list. -/
def natVal (ds : List Char) : Nat :=
  ds.foldl (fun a c => a * 10 + dval c) 0

/-- Decimal representation of a C `int`, as `printf("%d")` renders it. -/
def intChars (i : Int) : List Char :=
  if i < 0 then '-' :: natDigits i.natAbs else natDigits i.toNat

theorem dval_digitChar {n : Nat} (h : n < 10) : dval (digitChar n) = n := by
  interval_cases n <;> decide

theorem isDigit_digitChar {n : Nat} (h : n < 10) :
    (digitChar n).isDigit = true := by
  interval_cases n <;> decide

theorem natDigits_ne_nil (n : Nat) : natDigits n ≠ [] := by
  rw [natDigits]
  split
  · simp
  · simp

theorem natDigits_all_digits (n : Nat) : ∀ c ∈ natDigits n, c.isDigit = true := by
  induction n using Nat.strong_induction_on with
  | _ n ih =>
    rw [natDigits]
    split
    · next h =>
      intro c hc
      simp only [List.mem_singleton] at hc
      subst hc
      exact isDigit_digitChar h
    · next h =>
      intro c hc
      rw [List.mem_append] at hc
      rcases hc with hc | hc
      · exact ih (n / 10) (Nat.div_lt_self (by omega) (by omega)) c hc
      · simp only [List.mem_singleton] at hc
        subst hc
        exact isDigit_digitChar (Nat.mod_lt _ (by omega))

theorem natVal_append_digit (ds : List Char) (c : Char) :
    natVal (ds ++ [c]) = natVal ds * 10 + dval c := by
  simp [natVal, List.foldl_append]

theorem natVal_natDigits (n : Nat) : natVal (natDigits n) = n := by
  induction n using Nat.strong_induction_on with
  | _ n ih =>
    rw [natDigits]
    split
    · next h =>
      simp [natVal, dval_digitChar h]
    · next h =>
      rw [natVal_append_digit, ih (n / 10) (Nat.div_lt_self (by omega) (by omega)),
        dval_digitChar (Nat.mod_lt _ (by omega))]
      omega

/-! ## Operation status codes and executor events

The `op_status` values reported by the executor (`PCMK_LRM_OP_*` in
`lrmd.h`), treated by this layer as an opaque fixed enumeration. -/

inductive OpStatus where
  | UNKNOWN
  | PENDING
  | DONE
  | CANCELLED
  | TIMEOUT
  | NOTSUPPORTED
  | ERROR
  | ERROR_HARD
  | ERROR_FATAL
  | NOT_INSTALLED
  | NOT_CONNECTED
  | INVALID
deriving DecidableEq

/-- The fields of `lrmd_event_data_t` this layer reads: execution status,
actual return code, and the opaque user data carrying the transition key
(`NULL` modelled as `none`). -/
structure LrmdEvent where
  op_status : OpStatus
  rc : Int
  user_data : Option String
deriving DecidableEq

/-! ## Result classifier: `did_rsc_op_fail` -/

/-- `did_rsc_op_fail(op, target_rc)` from `operations.c`. -/
def did_rsc_op_fail (op : LrmdEvent) (target_rc : Int) : Bool :=
  match op.op_status with
  | .CANCELLED | .PENDING => false
  | .NOTSUPPORTED | .TIMEOUT | .ERROR | .NOT_CONNECTED | .INVALID => true
  | _ => decide (target_rc ≠ op.rc)

/-- The classification exactly as the claim states it: never failed for
`Pending`/`Cancelled`, unconditionally failed for
`NotSupported`/`Timeout`/`Error`/`NotConnected`/`Invalid`, and for every
other status failed exactly when the actual return code differs from the
target return code. -/
def is_failed_claim (st : OpStatus) (actual_rc target_rc : Int) : Bool :=
  match st with
  | .PENDING | .CANCELLED => false
  | .NOTSUPPORTED | .TIMEOUT | .ERROR | .NOT_CONNECTED | .INVALID => true
  | _ => decide (actual_rc ≠ target_rc)

/-- **C1.** For every operation status and every pair of return codes,
`did_rsc_op_fail` returns false when the status is Pending or Cancelled,
true when it is NotSupported, Timeout, Error, NotConnected, or Invalid,
and for every other status (including Done) returns true exactly when the
actual return code differs from the target return code. -/
theorem did_rsc_op_fail_matches_claim (st : OpStatus) (rc target_rc : Int)
    (u : Option String) :
    did_rsc_op_fail ⟨st, rc, u⟩ target_rc = is_failed_claim st rc target_rc := by
  cases st <;> simp [did_rsc_op_fail, is_failed_claim, ne_comm]

/-! ## Operation key codec: `pcmk__op_key` and `parse_op_key` -/

/-- `pcmk__op_key(rsc_id, op_type, interval_ms)`: renders
`PCMK__OP_FMT` = `"%s_%s_%u"`. `interval_ms` is a `guint`, so it is taken
modulo `2^32`. -/
def pcmk__op_key (rsc_id op_type : String) (interval_ms : Nat) : String :=
  rsc_id ++ "_" ++ op_type ++ "_" ++ String.mk (natDigits (interval_ms % 2 ^ 32))

/-- The interval-scanning loop of `parse_op_key`: starting from `offset`
(initially `len - 1`), consume the maximal trailing digit run while
`offset > 0`, adding `digit * 10^(len - offset - 1)` (an `unsigned long
long`, hence `% 2^64`) into the `guint` accumulator (hence `% 2^32`).
Returns the final offset and the accumulated interval. -/
def parseIntervalLoop (ks : List Char) (offset acc : Nat) : Nat × Nat :=
  match offset with
  | 0 => (0, acc)
  | o + 1 =>
    if (ks.getD (o + 1) ' ').isDigit then
      parseIntervalLoop ks o
        ((acc + dval (ks.getD (o + 1) ' ') * 10 ^ (ks.length - (o + 1) - 1) % 2 ^ 64) % 2 ^ 32)
    else (o + 1, acc)

/-- The backward scan of `parse_op_key` looking for the `'_'` that
delimits the action: decrement while `offset > 0` and
`key[offset] != '_'`. -/
def scanBackUnderscore (ks : List Char) (offset : Nat) : Nat :=
  match offset with
  | 0 => 0
  | o + 1 => if ks.getD (o + 1) ' ' = '_' then o + 1 else scanBackUnderscore ks o

/-- The index of the first occurrence of `needle` in `hay` (C `strstr`),
or `none`. -/
def strstrIdx (hay needle : List Char) : Option Nat :=
  (List.range (hay.length + 1)).find? (fun i => needle.isPrefixOf (hay.drop i))

/-- The notification-marker stripping of `parse_op_key`: find the first
occurrence of `marker` (`strstr`); if the remainder of the string from
that occurrence equals the marker (i.e. the first occurrence is a trailing
match), truncate there. -/
def stripNotify (s marker : List Char) : List Char :=
  match strstrIdx s marker with
  | none => s
  | some i => if s.drop i = marker then s.take i else s

/-- The success flag and final values of the three output slots of
`parse_op_key` (each slot initialized to `none` / `0` on entry; `rsc_id`
and `op_type` stay `none` on failure, but `interval_ms` is written before
the key shape is validated). -/
structure ParseOpKeyResult where
  ok : Bool
  rsc_id : Option String
  op_type : Option String
  interval_ms : Nat
deriving DecidableEq

/-- `parse_op_key(key, &rsc_id, &op_type, &interval_ms)` from
`operations.c`, with all three output pointers supplied. -/
def parse_op_key (key : String) : ParseOpKeyResult :=
  let ks := key.data
  if ks = [] then ⟨false, none, none, 0⟩
  else
    let len := ks.length
    let scanned := parseIntervalLoop ks (len - 1) 0
    let offset := scanned.1
    let ival := scanned.2
    if offset = len - 1 ∨ ks.getD offset ' ' ≠ '_' then ⟨false, none, none, ival⟩
    else
      let mutableKey := ks.take offset
      let off2 := scanBackUnderscore ks (offset - 1)
      if ks.getD off2 ' ' ≠ '_' then ⟨false, none, none, ival⟩
      else
        let opType := mutableKey.drop (off2 + 1)
        let rscPart := mutableKey.take off2
        let r1 := stripNotify rscPart "_post_notify".data
        let r2 := stripNotify r1 "_pre_notify".data
        ⟨true, some (String.mk r2), some (String.mk opType), ival⟩

/-- **C10.** On the malformed key `"abc123"` (a trailing digit run not
preceded by an underscore) `parse_op_key` fails, leaves `rsc_id` and
`op_type` null, yet has already written the decimal value `123` of the
trailing digit run into the caller's `interval_ms` slot instead of leaving
it at its initialized `0`. -/
theorem parse_op_key_partial_interval_on_failure :
    parse_op_key "abc123" = ⟨false, none, none, 123⟩ ∧ (123 : Nat) ≠ 0 := by
  constructor
  · decide
  · decide

/-! ### Round-trip machinery for the operation key -/

theorem getD_append_left (l₁ l₂ : List Char) (n : Nat) (c : Char) (h : n < l₁.length) :
    (l₁ ++ l₂).getD n c = l₁.getD n c := by
  induction l₁ generalizing n with
  | nil => simp at h
  | cons x xs ih =>
    cases n with
    | zero => rfl
    | succ n =>
      simp only [List.cons_append, List.getD_cons_succ]
      exact ih n (by simpa using h)

theorem getD_append_right_self (l₁ l₂ : List Char) (n : Nat) (c : Char) :
    (l₁ ++ l₂).getD (l₁.length + n) c = l₂.getD n c := by
  induction l₁ with
  | nil => simp
  | cons x xs ih =>
    simp only [List.cons_append, List.length_cons]
    have : xs.length + 1 + n = (xs.length + n) + 1 := by omega
    rw [this, List.getD_cons_succ, ih]

theorem getD_mem (l : List Char) (n : Nat) (c : Char) (h : n < l.length) :
    l.getD n c ∈ l := by
  rw [List.getD_eq_getElem l c h]
  exact List.getElem_mem h

/-- Partial sums of the digit weights consumed by `parseIntervalLoop`:
the exact value contributed by positions `m+1 … m+k` of `ks`, each digit
weighted by `10^(len - position - 1)`. -/
def sumWeights (ks : List Char) (m : Nat) : Nat → Nat
  | 0 => 0
  | k + 1 =>
    sumWeights ks m k + dval (ks.getD (m + k + 1) ' ') * 10 ^ (ks.length - (m + k + 1) - 1)

theorem parseIntervalLoop_consume (ks : List Char) (m : Nat) (k : Nat) :
    ∀ acc : Nat,
    (∀ j, 0 < j → j ≤ k → (ks.getD (m + j) ' ').isDigit = true) →
    (ks.getD m ' ').isDigit = false →
    acc + sumWeights ks m k < 2 ^ 32 →
    parseIntervalLoop ks (m + k) acc = (m, acc + sumWeights ks m k) := by
  induction k with
  | zero =>
    intro acc hdig hstop hb
    cases m with
    | zero => simp [parseIntervalLoop, sumWeights]
    | succ o =>
      rw [parseIntervalLoop, if_neg (by simpa using hstop)]
      simp [sumWeights]
  | succ k ih =>
    intro acc hdig hstop hb
    have hd : (ks.getD (m + k + 1) ' ').isDigit = true := by
      have := hdig (k + 1) (by omega) (by omega)
      simpa [Nat.add_assoc] using this
    have hstep : m + (k + 1) = (m + k) + 1 := by omega
    rw [hstep, parseIntervalLoop]
    simp only [hd, if_true]
    have hterm :
        dval (ks.getD (m + k + 1) ' ') * 10 ^ (ks.length - (m + k + 1) - 1)
          ≤ sumWeights ks m (k + 1) := by
      simp [sumWeights]
    have hsum : sumWeights ks m (k + 1) =
        sumWeights ks m k +
          dval (ks.getD (m + k + 1) ' ') * 10 ^ (ks.length - (m + k + 1) - 1) := rfl
    have hm64 :
        dval (ks.getD (m + k + 1) ' ') * 10 ^ (ks.length - (m + k + 1) - 1) % 2 ^ 64
          = dval (ks.getD (m + k + 1) ' ') * 10 ^ (ks.length - (m + k + 1) - 1) :=
      Nat.mod_eq_of_lt (by omega)
    have hm32 :
        (acc + dval (ks.getD (m + k + 1) ' ') * 10 ^ (ks.length - (m + k + 1) - 1)) % 2 ^ 32
          = acc + dval (ks.getD (m + k + 1) ' ') * 10 ^ (ks.length - (m + k + 1) - 1) :=
      Nat.mod_eq_of_lt (by omega)
    rw [hm64, hm32]
    rw [ih _ (fun j hj1 hj2 => hdig j hj1 (by omega)) hstop (by omega)]
    refine Prod.ext rfl ?_
    simp only [hsum]
    omega

theorem sumWeights_concat (pre d : List Char) (hpre : pre ≠ []) :
    ∀ k, k ≤ d.length →
    sumWeights (pre ++ d) (pre.length - 1) k = natVal (d.take k) * 10 ^ (d.length - k) := by
  have hpl : 1 ≤ pre.length := List.length_pos.mpr hpre
  intro k
  induction k with
  | zero => simp [sumWeights, natVal]
  | succ k ih =>
    intro hk
    have hk' : k ≤ d.length := by omega
    rw [sumWeights, ih hk']
    have hidx : pre.length - 1 + k + 1 = pre.length + k := by omega
    rw [hidx, getD_append_right_self]
    have hexp : (pre ++ d).length - (pre.length + k) - 1 = d.length - k - 1 := by
      simp [List.length_append]
      omega
    rw [hexp]
    have htake : d.take (k + 1) = d.take k ++ [d.getD k ' '] := by
      rw [List.take_succ]
      have h1 : d[k]? = some d[k] := List.getElem?_eq_getElem (by omega)
      rw [h1, List.getD_eq_getElem d ' ' (by omega)]
      rfl
    rw [htake, natVal_append_digit]
    have he1 : d.length - k - 1 = d.length - (k + 1) := by omega
    have he2 : d.length - k = (d.length - (k + 1)) + 1 := by omega
    rw [he1, he2, pow_succ]
    ring

theorem scanBackUnderscore_finds (ks : List Char) (m : Nat) :
    ∀ k, (∀ j, 0 < j → j ≤ k → ¬ ks.getD (m + j) ' ' = '_') →
    (m = 0 ∨ ks.getD m ' ' = '_') →
    scanBackUnderscore ks (m + k) = m := by
  intro k
  induction k with
  | zero =>
    intro _ hm
    rw [Nat.add_zero]
    rcases hm with rfl | hm
    · rfl
    · cases m with
      | zero => rfl
      | succ o => rw [scanBackUnderscore, if_pos hm]
  | succ k ih =>
    intro hnon hm
    have hne : ¬ ks.getD (m + k + 1) ' ' = '_' := by
      have := hnon (k + 1) (by omega) (le_refl _)
      simpa [Nat.add_assoc] using this
    have hstep : m + (k + 1) = (m + k) + 1 := by omega
    rw [hstep, scanBackUnderscore, if_neg hne]
    exact ih (fun j h1 h2 => hnon j h1 (by omega)) hm

theorem strstrIdx_none_of_not_mem (s rest : List Char) (c : Char) (hc : c ∉ s) :
    strstrIdx s (c :: rest) = none := by
  rw [strstrIdx, List.find?_eq_none]
  intro i _hi
  cases hd : s.drop i with
  | nil => simp [List.isPrefixOf]
  | cons x xs =>
    have hx : x ∈ s := List.drop_subset i s (hd ▸ List.mem_cons_self x xs)
    simp only [List.isPrefixOf, Bool.and_eq_true, beq_iff_eq, not_and]
    intro hcx _
    exact hc (hcx ▸ hx)

theorem stripNotify_of_not_mem (s rest : List Char) (c : Char) (hc : c ∉ s) :
    stripNotify s (c :: rest) = s := by
  rw [stripNotify, strstrIdx_none_of_not_mem s rest c hc]

theorem parse_op_key_concat (r' a' : List Char) (i : Nat)
    (hr : r' ≠ []) (_ha : a' ≠ [])
    (hru : '_' ∉ r') (hau : '_' ∉ a') (hi : i < 2 ^ 32) :
    parse_op_key ⟨r' ++ '_' :: (a' ++ '_' :: natDigits i)⟩ =
      ⟨true, some ⟨r'⟩, some ⟨a'⟩, i⟩ := by
  have hdne : natDigits i ≠ [] := natDigits_ne_nil i
  set d := natDigits i with hd
  have hdlen : 1 ≤ d.length := List.length_pos.mpr hdne
  have hrlen : 1 ≤ r'.length := List.length_pos.mpr hr
  set ks := r' ++ '_' :: (a' ++ '_' :: d) with hks
  have hks_ne : ks ≠ [] := by
    rw [hks]
    simp
  have hkslen : ks.length = r'.length + a'.length + d.length + 2 := by
    rw [hks]
    simp
    omega
  have hsplit1 : ks = (r' ++ '_' :: a') ++ '_' :: d := by
    rw [hks]
    simp
  have hsplit2 : ks = (r' ++ '_' :: (a' ++ ['_'])) ++ d := by
    rw [hks]
    simp
  have hsplit3 : ks = (r' ++ ['_']) ++ (a' ++ '_' :: d) := by
    rw [hks]
    simp
  have hlen1 : (r' ++ '_' :: a').length = r'.length + 1 + a'.length := by
    simp
    omega
  have hlen2 : (r' ++ '_' :: (a' ++ ['_'])).length = r'.length + 1 + a'.length + 1 := by
    simp
    omega
  have hlen3 : (r' ++ ['_']).length = r'.length + 1 := by
    simp
  have hgetm : ks.getD (r'.length + 1 + a'.length) ' ' = '_' := by
    have h0 := getD_append_right_self (r' ++ '_' :: a') ('_' :: d) 0 ' '
    rw [hlen1, Nat.add_zero] at h0
    rw [hsplit1, h0]
    rfl
  have hdig : ∀ j, 0 < j → j ≤ d.length →
      (ks.getD (r'.length + 1 + a'.length + j) ' ').isDigit = true := by
    intro j hj1 hj2
    have h0 := getD_append_right_self (r' ++ '_' :: (a' ++ ['_'])) d (j - 1) ' '
    rw [hlen2] at h0
    have hidx : r'.length + 1 + a'.length + 1 + (j - 1) = r'.length + 1 + a'.length + j := by
      omega
    rw [hidx] at h0
    rw [hsplit2, h0]
    exact natDigits_all_digits i _ (getD_mem d (j - 1) ' ' (by omega))
  have hstop : (ks.getD (r'.length + 1 + a'.length) ' ').isDigit = false := by
    rw [hgetm]
    rfl
  have hsum : sumWeights ks (r'.length + 1 + a'.length) d.length = natVal d := by
    have hcc := sumWeights_concat (r' ++ '_' :: (a' ++ ['_'])) d (by simp) d.length (le_refl _)
    rw [hlen2, ← hsplit2] at hcc
    have : r'.length + 1 + a'.length + 1 - 1 = r'.length + 1 + a'.length := by omega
    rw [this] at hcc
    simpa [List.take_length] using hcc
  have hval : natVal d = i := by
    rw [hd]
    exact natVal_natDigits i
  have hloop : parseIntervalLoop ks (ks.length - 1) 0 = (r'.length + 1 + a'.length, i) := by
    have hlm : ks.length - 1 = (r'.length + 1 + a'.length) + d.length := by omega
    rw [hlm, parseIntervalLoop_consume ks _ _ 0 hdig hstop (by rw [hsum, hval]; omega)]
    rw [hsum, hval, Nat.zero_add]
  have hgetr : ks.getD r'.length ' ' = '_' := by
    have h0 := getD_append_right_self r' ('_' :: (a' ++ '_' :: d)) 0 ' '
    rw [Nat.add_zero] at h0
    rw [hks, h0]
    rfl
  have hnon : ∀ j, 0 < j → j ≤ a'.length → ¬ ks.getD (r'.length + j) ' ' = '_' := by
    intro j h1 h2
    have h0 := getD_append_right_self (r' ++ ['_']) (a' ++ '_' :: d) (j - 1) ' '
    rw [hlen3] at h0
    have hidx : r'.length + 1 + (j - 1) = r'.length + j := by omega
    rw [hidx] at h0
    rw [hsplit3, h0, getD_append_left a' ('_' :: d) (j - 1) ' ' (by omega)]
    intro hcontra
    exact hau (hcontra ▸ getD_mem a' (j - 1) ' ' (by omega))
  have hscan : scanBackUnderscore ks (r'.length + 1 + a'.length - 1) = r'.length := by
    have hm1 : r'.length + 1 + a'.length - 1 = r'.length + a'.length := by omega
    rw [hm1]
    exact scanBackUnderscore_finds ks r'.length a'.length hnon (Or.inr hgetr)
  have htake : ks.take (r'.length + 1 + a'.length) = r' ++ '_' :: a' := by
    rw [hsplit1, ← hlen1, List.take_left]
  have hdrop2 : (r' ++ '_' :: a').drop (r'.length + 1) = a' := by
    have hsp : r' ++ '_' :: a' = (r' ++ ['_']) ++ a' := by simp
    rw [hsp, ← hlen3, List.drop_left]
  have htake2 : (r' ++ '_' :: a').take r'.length = r' := List.take_left r' ('_' :: a')
  have hpost : stripNotify r' "_post_notify".data = r' :=
    stripNotify_of_not_mem r' "post_notify".data '_' hru
  have hpre2 : stripNotify r' "_pre_notify".data = r' :=
    stripNotify_of_not_mem r' "pre_notify".data '_' hru
  show parse_op_key ⟨ks⟩ = ⟨true, some ⟨r'⟩, some ⟨a'⟩, i⟩
  rw [parse_op_key]
  simp only [String.data]
  rw [if_neg hks_ne]
  rw [hloop]
  simp only []
  rw [if_neg (by
    push_neg
    constructor
    · omega
    · exact hgetm)]
  rw [hscan]
  rw [if_neg (by
    push_neg
    exact hgetr)]
  rw [htake, hdrop2, htake2, hpost, hpre2]

/-- **C2.** For every non-empty `resource_id` and non-empty `action`, each
containing no underscore, and every interval in the `guint` range,
decoding the operation key produced by encoding succeeds and returns
exactly the original resource id, action, and interval. -/
theorem op_key_roundtrip (r a : String) (i : Nat)
    (hr : r.data ≠ []) (ha : a.data ≠ [])
    (hru : '_' ∉ r.data) (hau : '_' ∉ a.data) (hi : i < 2 ^ 32) :
    parse_op_key (pcmk__op_key r a i) = ⟨true, some r, some a, i⟩ := by
  have hmod : i % 2 ^ 32 = i := Nat.mod_eq_of_lt hi
  have hdata : (pcmk__op_key r a i).data =
      r.data ++ '_' :: (a.data ++ '_' :: natDigits i) := by
    rw [pcmk__op_key, hmod]
    cases r with
    | mk rd =>
      cases a with
      | mk ad => simp [String.data]
  have hkey : pcmk__op_key r a i = ⟨r.data ++ '_' :: (a.data ++ '_' :: natDigits i)⟩ := by
    cases hk : pcmk__op_key r a i with
    | mk l =>
      rw [hk] at hdata
      simp only [String.data] at hdata
      rw [hdata]
  rw [hkey, parse_op_key_concat r.data a.data i hr ha hru hau hi]

/-- Concrete instance of the C2 round-trip at `("rsc", "start", 10)`. -/
theorem op_key_roundtrip_witness :
    parse_op_key (pcmk__op_key "rsc" "start" 10) = ⟨true, some "rsc", some "start", 10⟩ :=
  op_key_roundtrip "rsc" "start" 10 (by decide) (by decide) (by decide) (by decide)
    (by norm_num)

/-! ## Transition key codec: `pcmk__transition_key`, `decode_transition_key`,
`decode_transition_magic`, `rsc_op_expected_rc`

`sscanf` with the formats `"%d:%d:%d:%36s"` and `"%d:%d;%ms"` is modelled
by small scanners: `%d` skips whitespace, reads an optional sign and a
maximal non-empty digit run; a literal format character must match the
next input character exactly; `%Ns` skips whitespace and reads a
non-empty token of at most `N` non-whitespace characters (`%ms` is the
same with no width bound). `sscanf` succeeds here iff all items of the
format match, which is what both callers require. -/

/-- The optional sign at the start of a `%d` item. -/
def scanSign (s : List Char) : Bool × List Char :=
  match s with
  | c :: cs =>
    if c = '-' then (true, cs) else if c = '+' then (false, cs) else (false, c :: cs)
  | [] => (false, [])

/-- One `%d` item of `sscanf`. -/
def scanInt (s : List Char) : Option (Int × List Char) :=
  let s1 := s.dropWhile isspace
  let sg := scanSign s1
  let ds := sg.2.takeWhile Char.isDigit
  if ds = [] then none
  else
    some (if sg.1 then -(natVal ds : Int) else (natVal ds : Int), sg.2.drop ds.length)

/-- A literal (non-whitespace) character of a `sscanf` format. -/
def scanLit (c : Char) (s : List Char) : Option (List Char) :=
  match s with
  | x :: xs => if x = c then some xs else none
  | [] => none

/-- The token reader of `%Ns`: up to `w` characters, stopping at
whitespace or end of input. -/
def scanTok : Nat → List Char → List Char
  | 0, _ => []
  | _ + 1, [] => []
  | w + 1, c :: cs => if isspace c then [] else c :: scanTok w cs

/-- `%Ns`: skip whitespace, then a non-empty token of at most `w`
non-whitespace characters. -/
def scanStr (w : Nat) (s : List Char) : Option (List Char × List Char) :=
  let s1 := s.dropWhile isspace
  let tok := scanTok w s1
  if tok = [] then none else some (tok, s1.drop tok.length)

/-- `sscanf(key, "%d:%d:%d:%36s", ...)`: all four items, or `none` if
fewer match. -/
def scanTransKey (s : List Char) : Option (Int × Int × Int × List Char) := do
  let av ← scanInt s
  let s2 ← scanLit ':' av.2
  let tv ← scanInt s2
  let s4 ← scanLit ':' tv.2
  let rv ← scanInt s4
  let s6 ← scanLit ':' rv.2
  let uv ← scanStr 36 s6
  pure (av.1, tv.1, rv.1, uv.1)

/-- Success flag and final output-slot values of `decode_transition_key`:
every supplied output is initialized (`-1` for the integers, null for the
uuid) before parsing and overwritten only when `sscanf` matched all four
items. -/
structure DecodeTransKeyResult where
  ok : Bool
  uuid : Option String
  transition_id : Int
  action_id : Int
  target_rc : Int
deriving DecidableEq

/-- `decode_transition_key(key, &uuid, &transition_id, &action_id,
&target_rc)` from `operations.c`, with all four output pointers
supplied. -/
def decode_transition_key (key : String) : DecodeTransKeyResult :=
  match scanTransKey key.data with
  | some (a, t, r, u) => ⟨true, some (String.mk u), t, a, r⟩
  | none => ⟨false, none, -1, -1, -1⟩

/-- `pcmk__transition_key(transition_id, action_id, target_rc, node)` from
`operations.c`: `CRM_CHECK(node != NULL)` fails only on a null node;
otherwise renders `"%d:%d:%d:%-*s"` with field width 36 — the node is
left-justified and space-padded to at least 36 characters (a `printf`
field width never truncates). -/
def pcmk__transition_key (transition_id action_id target_rc : Int)
    (node : Option String) : Option String :=
  match node with
  | none => none
  | some n =>
    some (String.mk (intChars action_id ++ ':' :: intChars transition_id ++
      ':' :: intChars target_rc ++
      ':' :: (n.data ++ List.replicate (36 - n.data.length) ' ')))

/-- `sscanf(magic, "%d:%d;%ms", ...)`: two integers, a literal `';'`, an
unbounded non-empty token (the remaining length bounds the token). -/
def scanMagic (s : List Char) : Option (Int × Int × List Char) := do
  let sv ← scanInt s
  let s2 ← scanLit ':' sv.2
  let rv ← scanInt s2
  let s4 ← scanLit ';' rv.2
  let kv ← scanStr s4.length s4
  pure (sv.1, rv.1, kv.1)

/-- Success flag and final output-slot values of
`decode_transition_magic`. This function does not initialize the caller's
output slots, so the model takes their prior contents (`uuid0`, ...) and
returns their final contents: nothing is written when the initial
`sscanf` matches fewer than 3 items, while `op_status`/`op_rc` are
written before delegating the tail to `decode_transition_key` (which
writes its own four outputs even when it fails). -/
structure DecodeMagicResult where
  ok : Bool
  uuid : Option String
  transition_id : Int
  action_id : Int
  op_status : Int
  op_rc : Int
  target_rc : Int
deriving DecidableEq

/-- `decode_transition_magic(magic, &uuid, &transition_id, &action_id,
&op_status, &op_rc, &target_rc)` from `operations.c`, with all output
pointers supplied and holding the given prior values. -/
def decode_transition_magic (magic : String) (uuid0 : Option String)
    (tid0 aid0 st0 rc0 trc0 : Int) : DecodeMagicResult :=
  match scanMagic magic.data with
  | none => ⟨false, uuid0, tid0, aid0, st0, rc0, trc0⟩
  | some (st, rc, k) =>
    let d := decode_transition_key (String.mk k)
    ⟨d.ok, d.uuid, d.transition_id, d.action_id, st, rc, d.target_rc⟩

/-- `rsc_op_expected_rc(op)` from `operations.c`: `rc` starts at `0`; when
the event and its user data are present, `decode_transition_key` is
called with `&rc` as the target-rc output — and that function overwrites
`rc` even on failure (with its initialized `-1`). -/
def rsc_op_expected_rc (op : Option LrmdEvent) : Int :=
  match op with
  | none => 0
  | some e =>
    match e.user_data with
    | none => 0
    | some s => (decode_transition_key s).target_rc

/-! ### Facts about the scanners -/

theorem isspace_eq_false_of_isDigit (c : Char) (h : c.isDigit = true) :
    isspace c = false := by
  by_cases e1 : c = ' '
  · subst e1; exact absurd h (by decide)
  by_cases e2 : c = '\t'
  · subst e2; exact absurd h (by decide)
  by_cases e3 : c = '\n'
  · subst e3; exact absurd h (by decide)
  by_cases e4 : c = '\x0b'
  · subst e4; exact absurd h (by decide)
  by_cases e5 : c = '\x0c'
  · subst e5; exact absurd h (by decide)
  by_cases e6 : c = '\r'
  · subst e6; exact absurd h (by decide)
  simp [isspace, e1, e2, e3, e4, e5, e6]

theorem ne_minus_of_isDigit (c : Char) (h : c.isDigit = true) : c ≠ '-' := by
  rintro rfl
  exact absurd h (by decide)

theorem ne_plus_of_isDigit (c : Char) (h : c.isDigit = true) : c ≠ '+' := by
  rintro rfl
  exact absurd h (by decide)

theorem takeWhile_digits_append (ds rest : List Char)
    (hds : ∀ c ∈ ds, c.isDigit = true)
    (hrest : ∀ c, rest.head? = some c → c.isDigit = false) :
    (ds ++ rest).takeWhile Char.isDigit = ds := by
  induction ds with
  | nil =>
    cases rest with
    | nil => rfl
    | cons x xs => simp [List.takeWhile_cons, hrest x rfl]
  | cons c cs ih =>
    simp only [List.cons_append, List.takeWhile_cons, hds c (List.mem_cons_self c cs),
      if_true]
    rw [ih (fun d hd => hds d (List.mem_cons_of_mem c hd))]

theorem dropWhile_isspace_cons (c : Char) (l : List Char) (h : isspace c = false) :
    (c :: l).dropWhile isspace = c :: l := by
  simp [List.dropWhile_cons, h]

theorem scanInt_digits (ds rest : List Char) (hne : ds ≠ [])
    (hds : ∀ c ∈ ds, c.isDigit = true)
    (hrest : ∀ c, rest.head? = some c → c.isDigit = false) :
    scanInt (ds ++ rest) = some ((natVal ds : Int), rest) := by
  obtain ⟨c, cs, rfl⟩ := List.exists_cons_of_ne_nil hne
  have hcd : c.isDigit = true := hds c (List.mem_cons_self c cs)
  have hdw : (c :: (cs ++ rest)).dropWhile isspace = c :: (cs ++ rest) :=
    dropWhile_isspace_cons c _ (isspace_eq_false_of_isDigit c hcd)
  have hsgn : scanSign (c :: (cs ++ rest)) = (false, c :: (cs ++ rest)) := by
    simp [scanSign, ne_minus_of_isDigit c hcd, ne_plus_of_isDigit c hcd]
  have htw : (c :: (cs ++ rest)).takeWhile Char.isDigit = c :: cs := by
    have := takeWhile_digits_append (c :: cs) rest hds hrest
    simpa using this
  have hdrop : (c :: (cs ++ rest)).drop (c :: cs).length = rest := by
    have := List.drop_left (c :: cs) rest
    simp only [List.cons_append] at this
    exact this
  simp only [scanInt, List.cons_append, hdw, hsgn]
  rw [htw, if_neg (List.cons_ne_nil c cs), hdrop]
  simp

theorem scanInt_minus_digits (ds rest : List Char) (hne : ds ≠ [])
    (hds : ∀ c ∈ ds, c.isDigit = true)
    (hrest : ∀ c, rest.head? = some c → c.isDigit = false) :
    scanInt (('-' :: ds) ++ rest) = some (-(natVal ds : Int), rest) := by
  have hdw : ('-' :: (ds ++ rest)).dropWhile isspace = '-' :: (ds ++ rest) :=
    dropWhile_isspace_cons '-' _ (by decide)
  have hsgn : scanSign ('-' :: (ds ++ rest)) = (true, ds ++ rest) := by
    simp [scanSign]
  simp only [scanInt, List.cons_append, hdw, hsgn]
  rw [takeWhile_digits_append ds rest hds hrest, if_neg hne, List.drop_left]
  simp

theorem scanInt_intChars (i : Int) (c0 : Char) (rest : List Char)
    (hdig : c0.isDigit = false) :
    scanInt (intChars i ++ c0 :: rest) = some (i, c0 :: rest) := by
  have hrest : ∀ c, (c0 :: rest).head? = some c → c.isDigit = false := by
    intro c hc
    injection hc with hc
    subst hc
    exact hdig
  by_cases hi : i < 0
  · rw [intChars, if_pos hi,
      scanInt_minus_digits (natDigits i.natAbs) (c0 :: rest) (natDigits_ne_nil _)
        (natDigits_all_digits _) hrest]
    have hv : -((natVal (natDigits i.natAbs) : Nat) : Int) = i := by
      rw [natVal_natDigits]
      omega
    rw [hv]
  · rw [intChars, if_neg hi,
      scanInt_digits (natDigits i.toNat) (c0 :: rest) (natDigits_ne_nil _)
        (natDigits_all_digits _) hrest]
    have hv : ((natVal (natDigits i.toNat) : Nat) : Int) = i := by
      rw [natVal_natDigits]
      omega
    rw [hv]

theorem scanLit_cons (c : Char) (rest : List Char) :
    scanLit c (c :: rest) = some rest := by
  simp [scanLit]

theorem scanTok_replicate_space (w k : Nat) :
    scanTok w (List.replicate k ' ') = [] := by
  cases w with
  | zero => rfl
  | succ w =>
    cases k with
    | zero => rfl
    | succ k =>
      rw [List.replicate_succ, scanTok, if_pos (by decide)]

theorem scanTok_nonspace (l : List Char) (k : Nat)
    (hl : ∀ c ∈ l, isspace c = false) :
    ∀ w, scanTok w (l ++ List.replicate k ' ') = l.take w := by
  induction l with
  | nil =>
    intro w
    simp [scanTok_replicate_space]
  | cons c cs ih =>
    intro w
    cases w with
    | zero => rfl
    | succ w =>
      simp only [List.cons_append]
      rw [scanTok, if_neg (by simp [hl c (List.mem_cons_self c cs)])]
      rw [ih (fun d hd => hl d (List.mem_cons_of_mem c hd)) w]
      rfl

theorem scanStr_padded (w k : Nat) (u : List Char) (c : Char) (cs : List Char)
    (hcons : u = c :: cs) (hns : ∀ x ∈ u, isspace x = false) (hw : 0 < w) :
    scanStr w (u ++ List.replicate k ' ') =
      some (u.take w, (u ++ List.replicate k ' ').drop (u.take w).length) := by
  subst hcons
  have hdw : (c :: (cs ++ List.replicate k ' ')).dropWhile isspace =
      c :: (cs ++ List.replicate k ' ') :=
    dropWhile_isspace_cons c _ (hns c (List.mem_cons_self c cs))
  have htok := scanTok_nonspace (c :: cs) k hns w
  simp only [List.cons_append] at htok
  have htne : (c :: cs).take w ≠ [] := by
    cases w with
    | zero => omega
    | succ w => simp
  simp only [scanStr, List.cons_append, hdw, htok]
  rw [if_neg htne]

theorem scanTransKey_encoded (t a r : Int) (u : List Char) (c : Char) (cs : List Char)
    (hcons : u = c :: cs) (hns : ∀ x ∈ u, isspace x = false) (k : Nat) :
    scanTransKey (intChars a ++ ':' ::
        (intChars t ++ ':' :: (intChars r ++ ':' :: (u ++ List.replicate k ' ')))) =
      some (a, t, r, u.take 36) := by
  have hcol : (':').isDigit = false := by decide
  have h1 := scanInt_intChars a ':'
    (intChars t ++ ':' :: (intChars r ++ ':' :: (u ++ List.replicate k ' '))) hcol
  have h2 := scanLit_cons ':'
    (intChars t ++ ':' :: (intChars r ++ ':' :: (u ++ List.replicate k ' ')))
  have h3 := scanInt_intChars t ':'
    (intChars r ++ ':' :: (u ++ List.replicate k ' ')) hcol
  have h4 := scanLit_cons ':' (intChars r ++ ':' :: (u ++ List.replicate k ' '))
  have h5 := scanInt_intChars r ':' (u ++ List.replicate k ' ') hcol
  have h6 := scanLit_cons ':' (u ++ List.replicate k ' ')
  have h7 := scanStr_padded 36 k u c cs hcons hns (by omega)
  simp [scanTransKey, h1, h2, h3, h4, h5, h6, h7]

/-- **C3 (amended).** For every `transition_id`, `action_id`, `target_rc`
and non-empty, whitespace-free `node_id`, decoding the transition key
produced by encoding succeeds, returns the same `transition_id`,
`action_id` and `target_rc`, and returns a UUID field equal to `node_id`
truncated to at most 36 characters — the space padding added by the
encoder is never part of the decoded UUID, because `%36s` stops at the
first whitespace character. -/
theorem decode_encode_trans_key (t a r : Int) (n : String)
    (hne : n.data ≠ []) (hns : ∀ c ∈ n.data, isspace c = false) :
    decode_transition_key ((pcmk__transition_key t a r (some n)).getD "") =
      ⟨true, some (String.mk (n.data.take 36)), t, a, r⟩ := by
  obtain ⟨c, cs, hcons⟩ := List.exists_cons_of_ne_nil hne
  have hscan := scanTransKey_encoded t a r n.data c cs hcons hns (36 - n.length)
  simp [pcmk__transition_key, decode_transition_key, hscan]

/-- **C3 (amended).** For every `transition_id`, `action_id`, `target_rc`
and non-empty, whitespace-free `node_id`, decoding the transition key
produced by encoding succeeds, returns the same `transition_id`,
`action_id` and `target_rc`, and returns a UUID field equal to `node_id`
truncated to at most 36 characters — the space padding added by the
encoder is never part of the decoded UUID, because `%36s` stops at the
first whitespace character. -/
theorem trans_key_roundtrip (t a r : Int) (n : String)
    (hne : n.data ≠ []) (hns : ∀ c ∈ n.data, isspace c = false) :
    decode_transition_key ((pcmk__transition_key t a r (some n)).getD "") =
      ⟨true, some (String.mk (n.data.take 36)), t, a, r⟩ :=
  decode_encode_trans_key t a r n hne hns

/-- Concrete instance of the C3 round-trip at `(5, 7, 0, "node1")`: the
decoded UUID is `"node1"` itself, not padded. -/
theorem trans_key_roundtrip_witness :
    decode_transition_key ((pcmk__transition_key 5 7 0 (some "node1")).getD "") =
      ⟨true, some "node1", 5, 7, 0⟩ := by
  rw [trans_key_roundtrip 5 7 0 "node1" (by decide) (by decide)]
  decide

/-- **C3 (counterexample).** For `node_id = "n"`, decoding the encoded
transition key yields the UUID `"n"`, not `"n"` space-padded to exactly
36 characters as the claim states. -/
theorem trans_key_uuid_not_padded_cex :
    (decode_transition_key ((pcmk__transition_key 1 2 3 (some "n")).getD "")).uuid =
      some "n" ∧
    some ("n" : String) ≠
      some (String.mk ("n".data ++ List.replicate 35 ' ')) := by
  constructor
  · rw [decode_encode_trans_key 1 2 3 "n" (by decide) (by decide)]
    decide
  · decide

/-- **C9 (counterexample).** `pcmk__transition_key` does not fail on an
empty (non-null) node name: it produces a key whose node field is all
padding. -/
theorem trans_key_encode_empty_node_cex :
    pcmk__transition_key 1 2 3 (some "") ≠ none := by
  simp [pcmk__transition_key]

/-- **C9 (amended).** `pcmk__transition_key` fails exactly when the node
is null (`CRM_CHECK(node != NULL)`); for every non-null node — including
the empty string — it produces the full four-field key, whose length is
that of the three rendered integers, the three separators, and the node
field padded to at least 36 characters. -/
theorem trans_key_encode_null_check (t a r : Int) :
    pcmk__transition_key t a r none = none ∧
    ∀ n : String, ∃ s : String,
      pcmk__transition_key t a r (some n) = some s ∧
      s.length = (intChars a).length + (intChars t).length + (intChars r).length + 3 +
        max 36 n.length := by
  constructor
  · rfl
  · intro n
    refine ⟨_, rfl, ?_⟩
    have hmk : (String.mk (intChars a ++ ':' :: (intChars t ++ ':' :: (intChars r ++
        ':' :: (n.data ++ List.replicate (36 - n.data.length) ' '))))).length =
        (intChars a ++ ':' :: (intChars t ++ ':' :: (intChars r ++
        ':' :: (n.data ++ List.replicate (36 - n.data.length) ' ')))).length := rfl
    simp only [List.cons_append, List.append_assoc]
    rw [hmk]
    simp only [List.length_append, List.length_cons, List.length_replicate]
    have hnl : n.length = n.data.length := rfl
    rw [hnl]
    omega

/-- **C4 (counterexample).** On an event whose user data is present but
malformed, `rsc_op_expected_rc` returns `-1`, not the `0` the claim
states: `decode_transition_key` writes its initialized `-1` into the
caller's `rc` before failing. -/
theorem rsc_op_expected_rc_malformed_cex :
    (decode_transition_key "garbage").ok = false ∧
    rsc_op_expected_rc (some ⟨OpStatus.DONE, 0, some "garbage"⟩) = -1 := by
  constructor
  · decide
  · decide

/-- **C4 (amended).** `rsc_op_expected_rc` returns the decoded
`target_rc` when the user data decodes as a transition key, returns `0`
when the event or its user data is absent, and returns `-1` (the
initialized output of the failed decode) when the user data is present
but malformed. -/
theorem rsc_op_expected_rc_spec :
    rsc_op_expected_rc none = 0 ∧
    (∀ st rc, rsc_op_expected_rc (some ⟨st, rc, none⟩) = 0) ∧
    (∀ st rc s, (decode_transition_key s).ok = false →
      rsc_op_expected_rc (some ⟨st, rc, some s⟩) = -1) ∧
    (∀ st rc s, (decode_transition_key s).ok = true →
      rsc_op_expected_rc (some ⟨st, rc, some s⟩) = (decode_transition_key s).target_rc) := by
  refine ⟨rfl, fun st rc => rfl, ?_, ?_⟩
  · intro st rc s h
    show (decode_transition_key s).target_rc = -1
    cases hsc : scanTransKey s.data with
    | none => simp [decode_transition_key, hsc]
    | some v =>
      exfalso
      obtain ⟨a, t, r, u⟩ := v
      rw [decode_transition_key, hsc] at h
      simp at h
  · intro st rc s h
    rfl

/-- Concrete instance of the amended C4 on the malformed user data
`"bogus"`. -/
theorem rsc_op_expected_rc_spec_witness :
    rsc_op_expected_rc (some ⟨OpStatus.PENDING, 7, some "bogus"⟩) = -1 :=
  rsc_op_expected_rc_spec.2.2.1 OpStatus.PENDING 7 "bogus" (by decide)

/-! ### Failure of the magic scanner without a `';'` separator -/

theorem mem_of_mem_dropWhile (p : Char → Bool) (s : List Char) (x : Char)
    (hx : x ∈ s.dropWhile p) : x ∈ s := by
  induction s with
  | nil => simp at hx
  | cons c cs ih =>
    rw [List.dropWhile_cons] at hx
    by_cases hp : p c = true
    · rw [if_pos hp] at hx
      exact List.mem_cons_of_mem c (ih hx)
    · rw [if_neg (by simp [hp])] at hx
      exact hx

theorem scanSign_snd_subset (s : List Char) : ∀ x ∈ (scanSign s).2, x ∈ s := by
  cases s with
  | nil => intro x hx; simp [scanSign] at hx
  | cons c cs =>
    intro x hx
    by_cases h1 : c = '-'
    · subst h1
      simp only [scanSign, if_pos rfl] at hx
      exact List.mem_cons_of_mem _ hx
    · by_cases h2 : c = '+'
      · subst h2
        simp only [scanSign] at hx
        rw [if_neg (by decide : ('+' : Char) ≠ '-')] at hx
        simp only [if_pos trivial] at hx
        exact List.mem_cons_of_mem _ hx
      · simpa [scanSign, h1, h2] using hx

theorem scanInt_rest_subset (s : List Char) (v : Int) (rest : List Char)
    (h : scanInt s = some (v, rest)) : ∀ x ∈ rest, x ∈ s := by
  intro x hx
  simp only [scanInt] at h
  split at h
  · exact absurd h (by simp)
  · injection h with h'
    injection h' with h1 h2
    subst h2
    have hx2 : x ∈ (scanSign (s.dropWhile isspace)).2 :=
      List.drop_subset _ _ hx
    exact mem_of_mem_dropWhile isspace s x
      (scanSign_snd_subset (s.dropWhile isspace) x hx2)

theorem scanLit_rest_subset (c : Char) (s rest : List Char)
    (h : scanLit c s = some rest) : ∀ x ∈ rest, x ∈ s := by
  cases s with
  | nil => simp [scanLit] at h
  | cons y ys =>
    rw [scanLit] at h
    by_cases hy : y = c
    · rw [if_pos hy] at h
      injection h with h'
      subst h'
      intro x hx
      exact List.mem_cons_of_mem _ hx
    · rw [if_neg hy] at h
      cases h

theorem scanLit_mem (c : Char) (s rest : List Char) (h : scanLit c s = some rest) :
    c ∈ s := by
  cases s with
  | nil => simp [scanLit] at h
  | cons y ys =>
    rw [scanLit] at h
    by_cases hy : y = c
    · subst hy
      exact List.mem_cons_self y ys
    · rw [if_neg hy] at h
      cases h

theorem scanMagic_none_of_no_semicolon (s : List Char) (h : ';' ∉ s) :
    scanMagic s = none := by
  cases h1 : scanInt s with
  | none => simp [scanMagic, h1]
  | some v =>
    obtain ⟨v1, s1⟩ := v
    have hs1 : ∀ x ∈ s1, x ∈ s := scanInt_rest_subset s v1 s1 h1
    cases h2 : scanLit ':' s1 with
    | none => simp [scanMagic, h1, h2]
    | some s2 =>
      have hs2 : ∀ x ∈ s2, x ∈ s1 := scanLit_rest_subset ':' s1 s2 h2
      cases h3 : scanInt s2 with
      | none => simp [scanMagic, h1, h2, h3]
      | some w =>
        obtain ⟨w1, s3⟩ := w
        have hs3 : ∀ x ∈ s3, x ∈ s2 := scanInt_rest_subset s2 w1 s3 h3
        cases h4 : scanLit ';' s3 with
        | none => simp [scanMagic, h1, h2, h3, h4]
        | some s4 =>
          exact absurd (hs1 _ (hs2 _ (hs3 _ (scanLit_mem ';' s3 s4 h4)))) h

/-- **C8.** For every transition-magic string that lacks the `';'`
separator, or on which the initial `sscanf` matches fewer than 3 items,
`decode_transition_magic` fails and leaves every caller-supplied output
slot exactly as it found it — in particular the initialized defaults
(`-1` / null) are never partially overwritten. -/
theorem decode_transition_magic_failure_no_write (magic : String)
    (u0 : Option String) (t0 a0 s0 r0 g0 : Int)
    (h : ';' ∉ magic.data ∨ scanMagic magic.data = none) :
    decode_transition_magic magic u0 t0 a0 s0 r0 g0 =
      ⟨false, u0, t0, a0, s0, r0, g0⟩ := by
  have hnone : scanMagic magic.data = none := by
    rcases h with h | h
    · exact scanMagic_none_of_no_semicolon magic.data h
    · exact h
  simp [decode_transition_magic, hnone]

/-- Concrete instance of C8 on the separator-less magic `"abc"` with all
outputs at their documented defaults. -/
theorem decode_transition_magic_failure_witness :
    decode_transition_magic "abc" none (-1) (-1) (-1) (-1) (-1) =
      ⟨false, none, -1, -1, -1, -1, -1⟩ :=
  decode_transition_magic_failure_no_write "abc" none (-1) (-1) (-1) (-1) (-1)
    (Or.inl (by decide))

/-! ## Metadata requirement policy: `crm_op_needs_metadata` -/

/-- Modelled from the spec: `pcmk__str_eq(s1, s2, pcmk__str_null_matches)`
from the common string helpers (not under `src/`): under the
`pcmk__str_null_matches` flag a null argument matches anything (the
caller's doc note reads "op (or NULL to skip op check)"); otherwise plain
case-sensitive `strcmp` equality. -/
def pcmk__str_eq_null_matches (s1 : Option String) (s2 : String) : Bool :=
  match s1 with
  | none => true
  | some s => s = s2

/-- `crm_op_needs_metadata(rsc_class, op)` from `operations.c`. The
process-wide capability table (`pcmk_get_ra_caps`, not under `src/`) is
abstracted as the predicate `hasParams` saying whether a class's
capability set includes `pcmk_ra_cap_params`. The action-name constants
are the `CRMD_ACTION_*` literals the spec lists: start, monitor (status),
promote, demote, reload, migrate_to, migrate_from, notify. -/
def crm_op_needs_metadata (hasParams : String → Bool)
    (rsc_class op : Option String) : Bool :=
  if rsc_class = none ∧ op = none then false
  else if (match rsc_class with | some c => ! hasParams c | none => false) = true then false
  else if ¬ pcmk__str_eq_null_matches op "start" = true ∧
      op ≠ some "monitor" ∧ op ≠ some "promote" ∧ op ≠ some "demote" ∧
      op ≠ some "reload" ∧ op ≠ some "migrate_to" ∧ op ≠ some "migrate_from" ∧
      op ≠ some "notify" then false
  else true

/-- **C5 (counterexample).** With a parameter-supporting class and a null
action, `crm_op_needs_metadata` returns true — not false as the claim
states: the null action matches `CRMD_ACTION_START` under
`pcmk__str_null_matches` ("NULL to skip op check"). -/
theorem crm_op_needs_metadata_null_action_cex :
    crm_op_needs_metadata (fun _cls => true) (some "ocf") none = true := by
  decide

/-- **C5 (amended).** For every capability table and every class whose
capability set includes parameter support: a non-null action needs
metadata exactly when it is one of start, monitor, promote, demote,
reload, migrate_to, migrate_from, notify under exact case-sensitive
equality; a null action (with the class given) yields true, since the
null action skips the action check. -/
theorem crm_op_needs_metadata_spec (hasParams : String → Bool) (cls : String)
    (hp : hasParams cls = true) :
    (∀ act : String, crm_op_needs_metadata hasParams (some cls) (some act) =
      decide (act ∈ ["start", "monitor", "promote", "demote", "reload",
        "migrate_to", "migrate_from", "notify"])) ∧
    crm_op_needs_metadata hasParams (some cls) none = true := by
  constructor
  · intro act
    by_cases h1 : act = "start"
    · subst h1; simp [crm_op_needs_metadata, pcmk__str_eq_null_matches, hp]
    by_cases h2 : act = "monitor"
    · subst h2; simp [crm_op_needs_metadata, pcmk__str_eq_null_matches, hp]
    by_cases h3 : act = "promote"
    · subst h3; simp [crm_op_needs_metadata, pcmk__str_eq_null_matches, hp]
    by_cases h4 : act = "demote"
    · subst h4; simp [crm_op_needs_metadata, pcmk__str_eq_null_matches, hp]
    by_cases h5 : act = "reload"
    · subst h5; simp [crm_op_needs_metadata, pcmk__str_eq_null_matches, hp]
    by_cases h6 : act = "migrate_to"
    · subst h6; simp [crm_op_needs_metadata, pcmk__str_eq_null_matches, hp]
    by_cases h7 : act = "migrate_from"
    · subst h7; simp [crm_op_needs_metadata, pcmk__str_eq_null_matches, hp]
    by_cases h8 : act = "notify"
    · subst h8; simp [crm_op_needs_metadata, pcmk__str_eq_null_matches, hp]
    simp [crm_op_needs_metadata, pcmk__str_eq_null_matches, hp,
      h1, h2, h3, h4, h5, h6, h7, h8]
  · simp [crm_op_needs_metadata, pcmk__str_eq_null_matches, hp]

/-- Concrete instances of the amended C5: the spec's own test vector. -/
theorem crm_op_needs_metadata_spec_witness :
    crm_op_needs_metadata (fun _cls => true) (some "ocf") (some "start") = true ∧
    crm_op_needs_metadata (fun _cls => true) (some "ocf") (some "validate-all") = false := by
  have h := crm_op_needs_metadata_spec (fun _cls => true) "ocf" rfl
  constructor
  · rw [h.1 "start"]
    decide
  · rw [h.1 "validate-all"]
    decide

/-! ## Digest filter: `pcmk__filter_op_for_digest`

The parameter set is the attribute list of the operation's XML element:
name-value pairs in document order. `xml_remove_prop`, `crm_element_value`
and `crm_xml_add` are the libxml-backed attribute helpers (not under
`src/`), with their standard semantics on an attribute list. -/

/-- Modelled from the spec: the `CRM_META` namespace prefix constant
("the case-insensitive meta-attribute namespace prefix"). -/
def CRM_META : String := "CRM_meta"

/-- Modelled from the spec: the fixed bookkeeping attribute names removed
first — the identifier key, the protocol-version marker, the prior-digest
marker, the target-node name and UUID, and the external-IP bookkeeping
key (`attr_filter` in the source). -/
def attr_filter : List String :=
  ["id", "crm_feature_set", "op-digest", "on_node", "on_node_uuid", "pcmk_external_ip"]

/-- Modelled from the spec: `crm_meta_name(field)` (not under `src/`)
builds the namespaced attribute name `CRM_meta_` + field, mapping `-`
to `_`. -/
def crm_meta_name (field : String) : String :=
  CRM_META ++ "_" ++ String.mk (field.data.map (fun c => if c = '-' then '_' else c))

/-- Modelled from the spec: the field name of the namespaced interval
attribute (`XML_LRM_ATTR_INTERVAL_MS`). -/
def XML_LRM_ATTR_INTERVAL_MS : String := "interval"

/-- Modelled from the spec: the field name of the namespaced timeout
attribute (`XML_ATTR_TIMEOUT`). -/
def XML_ATTR_TIMEOUT : String := "timeout"

/-- `xml_remove_prop`: remove the attribute with the given name. -/
def xml_remove_prop (ps : List (String × String)) (name : String) :
    List (String × String) :=
  ps.filter (fun p => p.1 ≠ name)

/-- `crm_element_value`: the value of the named attribute, if present. -/
def crm_element_value (ps : List (String × String)) (name : String) : Option String :=
  (ps.find? (fun p => p.1 = name)).map Prod.snd

/-- `crm_xml_add`: set the named attribute, replacing its value when the
name is present and appending the attribute otherwise. -/
def crm_xml_add (ps : List (String × String)) (name value : String) :
    List (String × String) :=
  if ps.any (fun p => p.1 = name) then
    ps.map (fun p => if p.1 = name then (name, value) else p)
  else ps ++ [(name, value)]

/-- Modelled from the spec: `crm_element_value_ms` / `crm_parse_ms` (not
under `src/`) — "read the interval (milliseconds) from a namespaced
interval attribute; treat parse failure or absence as interval = 0". A
non-empty all-digit decimal string parses as a `guint` millisecond count;
absence or anything else fails. -/
def crm_parse_ms (s : Option String) : Option Nat :=
  match s with
  | none => none
  | some v =>
    if v.data ≠ [] ∧ v.data.all Char.isDigit then some (natVal v.data % 2 ^ 32)
    else none

/-- `strncasecmp(name, CRM_META, strlen(CRM_META)) == 0`: the first
`strlen(CRM_META)` characters of the name match the prefix
case-insensitively (false when the name is shorter, where `strncasecmp`
hits the terminator). -/
def startsWithMetaCI (name : String) : Bool :=
  (name.data.take CRM_META.data.length).map Char.toLower =
    CRM_META.data.map Char.toLower

/-- `pcmk__filter_op_for_digest(param_set)` from `operations.c`: remove
the `attr_filter` names; read the namespaced interval (0 on
absence/parse failure); capture the namespaced timeout value; remove
every attribute whose name starts case-insensitively with `CRM_meta`;
finally, when the interval is non-zero and a timeout was captured, add
the timeout attribute back. -/
def pcmk__filter_op_for_digest (param_set : List (String × String)) :
    List (String × String) :=
  let ps1 := attr_filter.foldl xml_remove_prop param_set
  let interval_ms :=
    (crm_parse_ms (crm_element_value ps1 (crm_meta_name XML_LRM_ATTR_INTERVAL_MS))).getD 0
  let timeout := crm_element_value ps1 (crm_meta_name XML_ATTR_TIMEOUT)
  let ps2 := ps1.filter (fun p => ¬ startsWithMetaCI p.1 = true)
  if interval_ms ≠ 0 then
    match timeout with
    | some tv => crm_xml_add ps2 (crm_meta_name XML_ATTR_TIMEOUT) tv
    | none => ps2
  else ps2

/-- **C6 (counterexample).** The digest normalization is not idempotent:
on a recurring operation's parameter set the first application retains
the timeout attribute, but the second application reads interval 0 (the
interval attribute was itself removed as a meta-attribute) and therefore
drops the retained timeout. -/
theorem filter_op_digest_not_idempotent_cex :
    pcmk__filter_op_for_digest (pcmk__filter_op_for_digest
      [("CRM_meta_interval", "60000"), ("CRM_meta_timeout", "30000")]) ≠
    pcmk__filter_op_for_digest
      [("CRM_meta_interval", "60000"), ("CRM_meta_timeout", "30000")] := by
  decide

/-! ### Lookup and removal lemmas for the digest filter -/

theorem find?_filter_ne_key (l : List (String × String)) (k n : String) (h : k ≠ n) :
    (l.filter (fun p => p.1 ≠ n)).find? (fun p => p.1 = k) =
      l.find? (fun p => p.1 = k) := by
  induction l with
  | nil => rfl
  | cons p ps ih =>
    by_cases hp1 : p.1 = k
    · have hpn : p.1 ≠ n := by rw [hp1]; exact h
      rw [List.filter_cons_of_pos (by simp [hpn]),
        List.find?_cons_of_pos _ (by simp [hp1]), List.find?_cons_of_pos _ (by simp [hp1])]
    · by_cases hpn : p.1 = n
      · rw [List.filter_cons_of_neg (by simp [hpn]),
          List.find?_cons_of_neg _ (by simp [hp1]), ih]
      · rw [List.filter_cons_of_pos (by simp [hpn]),
          List.find?_cons_of_neg _ (by simp [hp1]),
          List.find?_cons_of_neg _ (by simp [hp1]), ih]

theorem crm_element_value_remove_ne (ps : List (String × String)) (n k : String)
    (h : k ≠ n) :
    crm_element_value (xml_remove_prop ps n) k = crm_element_value ps k := by
  rw [crm_element_value, crm_element_value, xml_remove_prop, find?_filter_ne_key ps k n h]

theorem crm_element_value_attr_filter (ps : List (String × String)) (k : String)
    (h : ∀ n ∈ attr_filter, k ≠ n) :
    crm_element_value (attr_filter.foldl xml_remove_prop ps) k = crm_element_value ps k := by
  simp only [attr_filter, List.foldl_cons, List.foldl_nil]
  rw [crm_element_value_remove_ne _ "pcmk_external_ip" k
      (h "pcmk_external_ip" (by simp [attr_filter])),
    crm_element_value_remove_ne _ "on_node_uuid" k (h "on_node_uuid" (by simp [attr_filter])),
    crm_element_value_remove_ne _ "on_node" k (h "on_node" (by simp [attr_filter])),
    crm_element_value_remove_ne _ "op-digest" k (h "op-digest" (by simp [attr_filter])),
    crm_element_value_remove_ne _ "crm_feature_set" k
      (h "crm_feature_set" (by simp [attr_filter])),
    crm_element_value_remove_ne _ "id" k (h "id" (by simp [attr_filter]))]

theorem find?_meta_filtered_none (l : List (String × String)) (k : String)
    (hk : startsWithMetaCI k = true) :
    (l.filter (fun p => ¬ startsWithMetaCI p.1 = true)).find? (fun p => p.1 = k) = none := by
  rw [List.find?_eq_none]
  intro x hx
  rw [List.mem_filter] at hx
  obtain ⟨_, hx2⟩ := hx
  simp only [decide_eq_true_eq] at hx2 ⊢
  intro hxe
  rw [hxe] at hx2
  exact hx2 hk

theorem crm_element_value_meta_filtered (l : List (String × String)) (k : String)
    (hk : startsWithMetaCI k = true) :
    crm_element_value (l.filter (fun p => ¬ startsWithMetaCI p.1 = true)) k = none := by
  rw [crm_element_value, find?_meta_filtered_none l k hk]
  rfl

theorem find?_append_of_none (p : (String × String) → Bool)
    (l₁ l₂ : List (String × String)) (h : l₁.find? p = none) :
    (l₁ ++ l₂).find? p = l₂.find? p := by
  induction l₁ with
  | nil => rfl
  | cons a as ih =>
    by_cases ha : p a = true
    · rw [List.find?_cons_of_pos _ ha] at h
      cases h
    · rw [List.find?_cons_of_neg _ (by simp [ha])] at h
      rw [List.cons_append, List.find?_cons_of_neg _ (by simp [ha]), ih h]

theorem crm_xml_add_absent (ps : List (String × String)) (k v : String)
    (h : ps.find? (fun p => p.1 = k) = none) :
    crm_xml_add ps k v = ps ++ [(k, v)] := by
  rw [crm_xml_add, if_neg]
  intro hany
  rw [List.any_eq_true] at hany
  obtain ⟨x, hx1, hx2⟩ := hany
  have := List.find?_eq_none.mp h x hx1
  exact this hx2

theorem crm_element_value_append_self (ps : List (String × String)) (k v : String)
    (h : ps.find? (fun p => p.1 = k) = none) :
    crm_element_value (ps ++ [(k, v)]) k = some v := by
  rw [crm_element_value, find?_append_of_none _ ps [(k, v)] h,
    List.find?_cons_of_pos _ (by simp)]
  rfl

/-- **C7.** If the namespaced interval attribute parses to a non-zero
value and the namespaced timeout attribute is present, the normalized set
still contains the timeout attribute with its original value; if the
interval is 0 (or the interval attribute is absent or unparseable), the
timeout attribute is absent from the normalized set even if originally
present. -/
theorem filter_op_digest_timeout (ps : List (String × String)) (tv : String) :
    ((crm_parse_ms (crm_element_value ps (crm_meta_name XML_LRM_ATTR_INTERVAL_MS))).getD 0 ≠ 0 →
      crm_element_value ps (crm_meta_name XML_ATTR_TIMEOUT) = some tv →
      crm_element_value (pcmk__filter_op_for_digest ps) (crm_meta_name XML_ATTR_TIMEOUT) =
        some tv) ∧
    ((crm_parse_ms (crm_element_value ps (crm_meta_name XML_LRM_ATTR_INTERVAL_MS))).getD 0 = 0 →
      crm_element_value (pcmk__filter_op_for_digest ps) (crm_meta_name XML_ATTR_TIMEOUT) =
        none) := by
  have hik : ∀ n ∈ attr_filter, crm_meta_name XML_LRM_ATTR_INTERVAL_MS ≠ n := by decide
  have htk : ∀ n ∈ attr_filter, crm_meta_name XML_ATTR_TIMEOUT ≠ n := by decide
  have hiv := crm_element_value_attr_filter ps _ hik
  have htv := crm_element_value_attr_filter ps _ htk
  have hmeta : startsWithMetaCI (crm_meta_name XML_ATTR_TIMEOUT) = true := by decide
  have hnone := find?_meta_filtered_none (attr_filter.foldl xml_remove_prop ps)
    (crm_meta_name XML_ATTR_TIMEOUT) hmeta
  constructor
  · intro hint htimeout
    simp only [pcmk__filter_op_for_digest]
    rw [hiv, htv, htimeout, if_pos hint]
    dsimp only
    rw [crm_xml_add_absent _ _ _ hnone]
    exact crm_element_value_append_self _ _ _ hnone
  · intro hint
    simp only [pcmk__filter_op_for_digest]
    rw [hiv, if_neg (by simp [hint])]
    exact crm_element_value_meta_filtered _ _ hmeta

/-- Concrete instances of C7: interval 60000 retains the timeout with its
value, interval 0 drops it. -/
theorem filter_op_digest_timeout_witness :
    crm_element_value (pcmk__filter_op_for_digest
        [("CRM_meta_interval", "60000"), ("CRM_meta_timeout", "30000")])
      (crm_meta_name XML_ATTR_TIMEOUT) = some "30000" ∧
    crm_element_value (pcmk__filter_op_for_digest
        [("CRM_meta_interval", "0"), ("CRM_meta_timeout", "30000")])
      (crm_meta_name XML_ATTR_TIMEOUT) = none := by
  constructor
  · exact (filter_op_digest_timeout
      [("CRM_meta_interval", "60000"), ("CRM_meta_timeout", "30000")] "30000").1
      (by decide) (by decide)
  · exact (filter_op_digest_timeout
      [("CRM_meta_interval", "0"), ("CRM_meta_timeout", "30000")] "30000").2
      (by decide)

/-! ### Idempotence of the digest filter on its non-re-adding domain -/

theorem mem_foldl_remove (ns : List String) (ps : List (String × String))
    (p : String × String) (hp : p ∈ ns.foldl xml_remove_prop ps) :
    p ∈ ps ∧ ∀ n ∈ ns, p.1 ≠ n := by
  induction ns generalizing ps with
  | nil =>
    refine ⟨hp, ?_⟩
    intro n hn
    simp at hn
  | cons n ns ih =>
    rw [List.foldl_cons] at hp
    obtain ⟨h1, h2⟩ := ih (xml_remove_prop ps n) hp
    rw [xml_remove_prop, List.mem_filter] at h1
    obtain ⟨h1a, h1b⟩ := h1
    refine ⟨h1a, ?_⟩
    intro m hm
    rcases List.mem_cons.mp hm with rfl | hm
    · simpa using h1b
    · exact h2 m hm

theorem remove_id_of_absent (l : List (String × String)) (n : String)
    (h : ∀ p ∈ l, p.1 ≠ n) : xml_remove_prop l n = l := by
  rw [xml_remove_prop]
  exact List.filter_eq_self.mpr (by intro a ha; simpa using h a ha)

theorem foldl_remove_id (ns : List String) (l : List (String × String))
    (h : ∀ p ∈ l, ∀ n ∈ ns, p.1 ≠ n) : ns.foldl xml_remove_prop l = l := by
  induction ns with
  | nil => rfl
  | cons n ns ih =>
    rw [List.foldl_cons,
      remove_id_of_absent l n (fun p hp => h p hp n (List.mem_cons_self n ns))]
    exact ih (fun p hp m hm => h p hp m (List.mem_cons_of_mem n hm))

theorem filter_meta_id (l : List (String × String))
    (h : ∀ p ∈ l, startsWithMetaCI p.1 = false) :
    l.filter (fun p => ¬ startsWithMetaCI p.1 = true) = l :=
  List.filter_eq_self.mpr (by intro a ha; simp [h a ha])

theorem filter_op_digest_no_readd (ps : List (String × String))
    (h : (crm_parse_ms (crm_element_value ps
        (crm_meta_name XML_LRM_ATTR_INTERVAL_MS))).getD 0 = 0 ∨
      crm_element_value ps (crm_meta_name XML_ATTR_TIMEOUT) = none) :
    pcmk__filter_op_for_digest ps =
      (attr_filter.foldl xml_remove_prop ps).filter
        (fun p => ¬ startsWithMetaCI p.1 = true) := by
  have hik : ∀ n ∈ attr_filter, crm_meta_name XML_LRM_ATTR_INTERVAL_MS ≠ n := by decide
  have htk : ∀ n ∈ attr_filter, crm_meta_name XML_ATTR_TIMEOUT ≠ n := by decide
  have hiv := crm_element_value_attr_filter ps _ hik
  have htv := crm_element_value_attr_filter ps _ htk
  simp only [pcmk__filter_op_for_digest]
  rcases h with h | h
  · rw [hiv, if_neg (by simp [h])]
  · rw [htv, h]
    by_cases hc : (crm_parse_ms (crm_element_value
        (attr_filter.foldl xml_remove_prop ps)
        (crm_meta_name XML_LRM_ATTR_INTERVAL_MS))).getD 0 ≠ 0
    · rw [if_pos hc]
    · rw [if_neg hc]

/-- **C6 (amended).** Applying the digest normalization twice yields the
same result as applying it once for every parameter set whose namespaced
interval attribute is absent, unparseable or zero, or which lacks the
namespaced timeout attribute. When a non-zero interval and a timeout are
both present this fails (see the counterexample): the second application
reads interval 0 — the interval attribute itself was removed as a
meta-attribute — and drops the timeout that the first application
deliberately retained. -/
theorem filter_op_digest_idempotent_amended (ps : List (String × String))
    (h : (crm_parse_ms (crm_element_value ps
        (crm_meta_name XML_LRM_ATTR_INTERVAL_MS))).getD 0 = 0 ∨
      crm_element_value ps (crm_meta_name XML_ATTR_TIMEOUT) = none) :
    pcmk__filter_op_for_digest (pcmk__filter_op_for_digest ps) =
      pcmk__filter_op_for_digest ps := by
  have hfe := filter_op_digest_no_readd ps h
  set base := (attr_filter.foldl xml_remove_prop ps).filter
    (fun p => ¬ startsWithMetaCI p.1 = true) with hbase
  have hmem : ∀ p ∈ base, (∀ n ∈ attr_filter, p.1 ≠ n) ∧ startsWithMetaCI p.1 = false := by
    intro p hp
    rw [hbase, List.mem_filter] at hp
    obtain ⟨hp1, hp2⟩ := hp
    exact ⟨(mem_foldl_remove attr_filter ps p hp1).2, by simpa using hp2⟩
  have hfold : attr_filter.foldl xml_remove_prop base = base :=
    foldl_remove_id _ _ (fun p hp n hn => (hmem p hp).1 n hn)
  have hint2 : crm_element_value base (crm_meta_name XML_LRM_ATTR_INTERVAL_MS) = none := by
    rw [hbase]
    exact crm_element_value_meta_filtered _ _ (by decide)
  have hfilter2 : base.filter (fun p => ¬ startsWithMetaCI p.1 = true) = base :=
    filter_meta_id base (fun p hp => (hmem p hp).2)
  rw [hfe]
  simp only [pcmk__filter_op_for_digest]
  rw [hfold, hint2, if_neg (by simp [crm_parse_ms])]
  exact hfilter2

/-- Concrete instance of the amended C6 on a set with no interval
attribute. -/
theorem filter_op_digest_idempotent_witness :
    pcmk__filter_op_for_digest (pcmk__filter_op_for_digest [("id", "r1"), ("x", "y")]) =
      pcmk__filter_op_for_digest [("id", "r1"), ("x", "y")] :=
  filter_op_digest_idempotent_amended [("id", "r1"), ("x", "y")] (Or.inl (by decide))
